import Mathlib

/-!
Verification of the report share-link subsystem of the orca repository
(src/backend/src/controllers/reportController.ts and the token generator
in src/backend/src/utils/shareToken.ts), as a shallow embedding.

Time is modelled as an integer count of milliseconds.  `addDays` in the
source uses JavaScript calendar-day arithmetic (`setDate(getDate()+days)`),
which in a fixed-offset timezone equals adding `days * 86400000` ms; the
embedding uses that fixed-offset semantics.  Database tables are lists of
records; Prisma `findUnique` becomes `List.find?` (uniqueness of the looked
up key makes the first match the unique match).
-/

namespace Orca

/-- Folder record as selected by the controller:
`select: { id: true, name: true, parentId: true }`. -/
structure Folder where
  id : String
  name : String
  parentId : Option String
deriving DecidableEq, Repr

/-- Entry pushed onto the breadcrumb path by `getFolderPath`:
`{ id: folder.id, name: folder.name }`. -/
structure PathEntry where
  id : String
  name : String
deriving DecidableEq, Repr

/-- Test case fields the report path reads: its `sequence` (ordering
tie-break) and its `folderId` (start of the breadcrumb walk). -/
structure TestCase where
  id : String
  sequence : Int
  folderId : Option String
deriving DecidableEq, Repr

/-- Plan item: `order` is the plan's own item ordering field, `testCase`
the associated test case. -/
structure PlanItem where
  id : String
  order : Int
  testCase : TestCase
deriving DecidableEq, Repr

/-- Plan with its stored (unordered) items. -/
structure Plan where
  id : String
  items : List PlanItem
deriving DecidableEq, Repr

/-- ShareLink record, mirroring the `report_share_links` table
(id, token, planId, createdByUserId, createdAt, expiresAt, revokedAt). -/
structure ShareLink where
  id : String
  token : String
  planId : String
  createdByUserId : String
  createdAt : Int
  expiresAt : Int
  revokedAt : Option Int
deriving DecidableEq, Repr

/-- Database state: the tables the subsystem touches. -/
structure DB where
  links : List ShareLink
  plans : List Plan
  folders : List Folder
deriving Repr

/-- Prisma `folder.findUnique({ where: { id } })`. -/
def findFolder (fs : List Folder) (i : String) : Option Folder :=
  fs.find? (fun f => f.id == i)

/-- One-step-at-a-time embedding of the `while (currentId)` loop of
`getFolderPath`, with explicit fuel.  The loop body looks the current
folder up, stops (`break`) when it is missing, otherwise prepends
`{id, name}` (`path.unshift`) and moves to `parentId`.  A `none` result
means the fuel ran out while the loop was still running, i.e. the source
loop has not terminated within that many iterations. -/
def walkFuel (fs : List Folder) : Nat → Option String → List PathEntry → Option (List PathEntry)
  | _, none, acc => some acc
  | 0, some _, _ => none
  | Nat.succ n, some cid, acc =>
    match findFolder fs cid with
    | none => some acc
    | some f => walkFuel fs n f.parentId (⟨f.id, f.name⟩ :: acc)

/-- `getFolderPath(folderId)`: returns `[]` immediately when `folderId`
is null, otherwise runs the parent walk.  Fuel-indexed: `some path` iff
the source loop finishes within `fuel` iterations. -/
def getFolderPath (fs : List Folder) (folderId : Option String) (fuel : Nat) :
    Option (List PathEntry) :=
  walkFuel fs fuel folderId []

/-- The source loop terminates on this folder graph from this starting
folder id: some amount of fuel suffices. -/
def WalkTerminates (fs : List Folder) (folderId : Option String) : Prop :=
  ∃ fuel r, getFolderPath fs folderId fuel = some r

/-- SHARE_EXPIRES_DAYS constant of the controller. -/
def SHARE_EXPIRES_DAYS : Nat := 7

/-- Milliseconds in a day. -/
def msPerDay : Int := 86400000

/-- The controller's `addDays` in fixed-offset-timezone semantics. -/
def addDays (t : Int) (days : Nat) : Int := t + days * msPerDay

/-- Share metadata selected on the public path (lines 187-197 of the
controller): exactly id, token, planId, createdAt, expiresAt, revokedAt —
`createdByUserId` is not selected. -/
structure PublicShare where
  id : String
  token : String
  planId : String
  createdAt : Int
  expiresAt : Int
  revokedAt : Option Int
deriving DecidableEq, Repr

/-- Projection of a stored link to the public select set. -/
def ShareLink.toPublicShare (l : ShareLink) : PublicShare :=
  ⟨l.id, l.token, l.planId, l.createdAt, l.expiresAt, l.revokedAt⟩

/-- Failure modes of the public resolver: 404 and 410. -/
inductive ResolveError where
  | notFound
  | gone
deriving DecidableEq, Repr

/-- Prisma `reportShareLink.findUnique({ where: { token } })`. -/
def findLinkByToken (db : DB) (token : String) : Option ShareLink :=
  db.links.find? (fun l => l.token == token)

/-- Prisma `plan.findUnique({ where: { id } })`. -/
def findPlan (db : DB) (planId : String) : Option Plan :=
  db.plans.find? (fun p => p.id == planId)

/-- Steps 1-3 of `getPublicPlanReportByToken`: token lookup (absent →
404 notFound), liveness check (`link.revokedAt || link.expiresAt <= now`
→ 410 gone), plan load (absent → 410 gone, the defensive branch). -/
def resolveLink (db : DB) (token : String) (now : Int) :
    Except ResolveError (PublicShare × Plan) :=
  match findLinkByToken db token with
  | none => .error .notFound
  | some link =>
    if link.revokedAt.isSome || decide (link.expiresAt ≤ now) then .error .gone
    else
      match findPlan db link.planId with
      | none => .error .gone
      | some plan => .ok (link.toPublicShare, plan)

/-- The item ordering requested from the store on the public path:
`orderBy: [{ order: 'asc' }, { testCase: { sequence: 'asc' } }]`. -/
def itemLe (a b : PlanItem) : Prop :=
  a.order < b.order ∨ (a.order = b.order ∧ a.testCase.sequence ≤ b.testCase.sequence)

instance : DecidableRel itemLe := fun a b => by
  unfold itemLe; infer_instance

instance : IsTotal PlanItem itemLe where
  total a b := by
    unfold itemLe
    rcases lt_trichotomy a.order b.order with h | h | h
    · exact Or.inl (Or.inl h)
    · rcases le_total a.testCase.sequence b.testCase.sequence with h2 | h2
      · exact Or.inl (Or.inr ⟨h, h2⟩)
      · exact Or.inr (Or.inr ⟨h.symm, h2⟩)
    · exact Or.inr (Or.inl h)

instance : IsTrans PlanItem itemLe where
  trans a b c hab hbc := by
    unfold itemLe at *
    rcases hab with h1 | ⟨h1, h1s⟩ <;> rcases hbc with h2 | ⟨h2, h2s⟩
    · exact Or.inl (h1.trans h2)
    · exact Or.inl (h2 ▸ h1)
    · exact Or.inl (h1 ▸ h2)
    · exact Or.inr ⟨h1.trans h2, h1s.trans h2s⟩

/-- Items of a plan in the order the store returns them on the public
path (the orderBy above, realised as a sort). -/
def orderedItems (p : Plan) : List PlanItem :=
  List.insertionSort itemLe p.items

/-- One item of the public payload: the plan item with its test case
annotated with the resolved `folderPath`. -/
structure ReportItem where
  item : PlanItem
  folderPath : List PathEntry
deriving DecidableEq, Repr

/-- Annotation pass over the items (`plan.items.map` + `getFolderPath`
per item), fuel-indexed as the walk is: `none` when some item's walk
does not finish within the fuel. -/
def annotateItems (fs : List Folder) (fuel : Nat) : List PlanItem → Option (List ReportItem)
  | [] => some []
  | it :: rest =>
    match getFolderPath fs it.testCase.folderId fuel, annotateItems fs fuel rest with
    | some p, some ris => some (⟨it, p⟩ :: ris)
    | _, _ => none

/-- The `{ share, plan }` payload of a successful public resolve. -/
structure Payload where
  share : PublicShare
  plan : Plan
  items : List ReportItem
deriving Repr

/-- Full `getPublicPlanReportByToken`: steps 1-3 via `resolveLink`, then
item ordering and folder-path annotation.  `none` models the request not
finishing because a folder walk loops beyond the fuel. -/
def resolve (db : DB) (token : String) (now : Int) (fuel : Nat) :
    Option (Except ResolveError Payload) :=
  match resolveLink db token now with
  | .error e => some (.error e)
  | .ok (share, plan) =>
    (annotateItems db.folders fuel (orderedItems plan)).map
      (fun its => .ok ⟨share, plan, its⟩)

/-! ### Share-link service: Create, List, Revoke -/

/-- Outcome of one `prisma.reportShareLink.create` attempt, as the
controller's catch discriminates it: success, Prisma error code P2002
(unique constraint violation, here the token key), or any other error. -/
inductive AttemptOutcome where
  | success
  | uniqueConflict
  | otherError
deriving DecidableEq, Repr

/-- Response of `createPlanReportShareLink`: 404 when the plan is
missing, 201 with the created link (and the number of attempts used),
500 after the retry budget is exhausted, or the rethrown non-P2002 error
(caught by the outer handler as a generic 500). -/
inductive CreateResp where
  | notFound
  | created (link : ShareLink) (attemptsUsed : Nat)
  | serviceError
  | thrown (attempt : Nat)
deriving DecidableEq, Repr

/-- Record the controller asks the store to insert on attempt `a`:
token from a fresh generator call, `expiresAt = addDays(now, 7)` from the
service-captured clock, `createdAt` filled by the database default
CURRENT_TIMESTAMP at insert time (`dbNow`), `id` store-generated. -/
def mkLink (newId : String) (tokens : Nat → String) (planId userId : String)
    (now dbNow : Int) (a : Nat) : ShareLink :=
  { id := newId
    token := tokens a
    planId := planId
    createdByUserId := userId
    createdAt := dbNow
    expiresAt := addDays now SHARE_EXPIRES_DAYS
    revokedAt := none }

/-- The `for (let attempt = 0; attempt < 5; attempt++)` retry loop:
each attempt generates a new token and tries to persist; P2002 continues
the loop, any other error is rethrown, success returns 201; falling out
of the loop returns the 500 service error.  `outcomes a` is the store's
verdict on attempt `a`; `remaining` counts the attempts left. -/
def createAttempts (db : DB) (newId : String) (tokens : Nat → String)
    (planId userId : String) (now dbNow : Int) (outcomes : Nat → AttemptOutcome) :
    Nat → Nat → CreateResp × DB
  | _, 0 => (.serviceError, db)
  | a, Nat.succ n =>
    match outcomes a with
    | .success =>
      let link := mkLink newId tokens planId userId now dbNow a
      (.created link (a + 1), { db with links := db.links ++ [link] })
    | .uniqueConflict => createAttempts db newId tokens planId userId now dbNow outcomes (a + 1) n
    | .otherError => (.thrown a, db)

/-- `createPlanReportShareLink`: plan existence check then the bounded
retry loop (5 attempts starting at attempt 0). -/
def createPlanReportShareLink (db : DB) (newId : String) (tokens : Nat → String)
    (planId userId : String) (now dbNow : Int) (outcomes : Nat → AttemptOutcome) :
    CreateResp × DB :=
  match findPlan db planId with
  | none => (.notFound, db)
  | some _ => createAttempts db newId tokens planId userId now dbNow outcomes 0 5

/-- Response of `listPlanReportShareLinks`: 404 when the plan is
missing, otherwise the plan's links. -/
inductive ListResp where
  | notFound
  | ok (links : List ShareLink)
deriving DecidableEq, Repr

/-- The `orderBy: { createdAt: 'desc' }` ordering. -/
def linkNewestFirst (a b : ShareLink) : Prop := b.createdAt ≤ a.createdAt

instance : DecidableRel linkNewestFirst := fun a b => by
  unfold linkNewestFirst; infer_instance

instance : IsTotal ShareLink linkNewestFirst where
  total a b := le_total b.createdAt a.createdAt

instance : IsTrans ShareLink linkNewestFirst where
  trans _ _ _ hab hbc := le_trans hbc hab

/-- `listPlanReportShareLinks`: plan existence check, then
`findMany({ where: { planId }, orderBy: { createdAt: 'desc' } })` —
no condition on `expiresAt` or `revokedAt`. -/
def listPlanReportShareLinks (db : DB) (planId : String) : ListResp :=
  match findPlan db planId with
  | none => .notFound
  | some _ =>
    .ok (List.insertionSort linkNewestFirst (db.links.filter (fun l => l.planId == planId)))

/-- Response of `revokeReportShareLink`: 404 when the id is unknown;
`already` is the informational early return (`message: already-revoked`)
carrying the selected `{ id, revokedAt }` of the existing record;
`revoked` carries the updated full record. -/
inductive RevokeResp where
  | notFound
  | already (id : String) (revokedAt : Option Int)
  | revoked (link : ShareLink)
deriving DecidableEq, Repr

/-- Prisma `reportShareLink.findUnique({ where: { id } })`. -/
def findLinkById (db : DB) (i : String) : Option ShareLink :=
  db.links.find? (fun l => l.id == i)

/-- Body of `revokeReportShareLink` once the link is found: `revokedAt`
already set → return the existing record's selected fields with the
informational message and leave the store untouched; otherwise update
the row's `revokedAt` to now. -/
def revokeFound (db : DB) (i : String) (now : Int) (link : ShareLink) : RevokeResp × DB :=
  match link.revokedAt with
  | some t => (.already link.id (some t), db)
  | none =>
    (.revoked { link with revokedAt := some now },
      { db with
        links := db.links.map (fun l => if l.id == i then { l with revokedAt := some now } else l) })

/-- `revokeReportShareLink`: look the link up by id; absent → 404;
otherwise proceed as `revokeFound`. -/
def revokeReportShareLink (db : DB) (i : String) (now : Int) : RevokeResp × DB :=
  match findLinkById db i with
  | none => (.notFound, db)
  | some link => revokeFound db i now link

/-! ### Token generator (src/backend/src/utils/shareToken.ts)

`generateShareToken(bytes)` draws `bytes` random bytes from
`crypto.randomBytes` (Node's CSPRNG) and encodes them with the
`base64url` encoding: 6-bit groups mapped through the URL-safe alphabet
A-Z a-z 0-9 - _, no padding.  The embedding takes the drawn bytes as
input (the randomness source is part of the environment) and embeds the
encoding; bytes are naturals below 256. -/

/-- The base64url alphabet in index order. -/
def base64urlAlphabet : List Char :=
  "ABCDEFGHIJKLMNOPQRSTUVWXYZabcdefghijklmnopqrstuvwxyz0123456789-_".toList

/-- Index 0-63 to its alphabet character. -/
def sixbitToChar (i : Nat) : Char := base64urlAlphabet.getD i 'A'

/-- Alphabet character back to its 6-bit index. -/
def charToSixbit (c : Char) : Option Nat :=
  base64urlAlphabet.findIdx? (fun d => d == c)

/-- Bytes to 6-bit groups, big-endian within each 3-byte block, final
partial block truncated without padding (base64url). -/
def bytesToSixbits : List Nat → List Nat
  | [] => []
  | [a] => [a / 4, a % 4 * 16]
  | [a, b] => [a / 4, a % 4 * 16 + b / 16, b % 16 * 4]
  | a :: b :: c :: rest =>
    a / 4 :: (a % 4 * 16 + b / 16) :: (b % 16 * 4 + c / 64) :: c % 64 :: bytesToSixbits rest

/-- Inverse of `bytesToSixbits`; `none` on group lists no byte list
produces. -/
def sixbitsToBytes : List Nat → Option (List Nat)
  | [] => some []
  | [_] => none
  | [x, y] => if y % 16 == 0 then some [x * 4 + y / 16] else none
  | [x, y, z] =>
    if z % 4 == 0 then some [x * 4 + y / 16, y % 16 * 16 + z / 4] else none
  | x :: y :: z :: w :: rest =>
    (sixbitsToBytes rest).map
      (fun bs => (x * 4 + y / 16) :: (y % 16 * 16 + z / 4) :: (z % 4 * 64 + w) :: bs)

/-- `generateShareToken` on the drawn bytes: base64url-encode them. -/
def generateShareToken (bs : List Nat) : String :=
  String.mk ((bytesToSixbits bs).map sixbitToChar)

/-- Characters back to 6-bit indices; `none` on a character outside the
alphabet. -/
def charsToSixbits : List Char → Option (List Nat)
  | [] => some []
  | c :: rest =>
    match charToSixbit c, charsToSixbits rest with
    | some i, some is => some (i :: is)
    | _, _ => none

/-- Decoder for tokens, used to show the encoding loses no entropy. -/
def decodeToken (s : String) : Option (List Nat) :=
  (charsToSixbits s.toList).bind sixbitsToBytes

/-! ### Concrete sample data shared by witnesses -/

/-- Plan p1, no items. -/
def planP : Plan := { id := "p1", items := [] }

/-- Live link for p1 (not revoked, expires at 1000). -/
def liveLink : ShareLink := ⟨"l1", "t-live", "p1", "u1", 0, 1000, none⟩

/-- Revoked link for p1. -/
def revokedLink : ShareLink := ⟨"l2", "t-rev", "p1", "u1", 0, 1000, some 5⟩

/-- Expired link for p1 (expiresAt 10). -/
def expiredLink : ShareLink := ⟨"l3", "t-exp", "p1", "u1", 0, 10, none⟩

/-- Live link whose target plan does not exist. -/
def orphanLink : ShareLink := ⟨"l4", "t-orp", "p-gone", "u1", 0, 1000, none⟩

/-- Sample store with one plan and the four links above. -/
def sampleDB : DB :=
  { links := [liveLink, revokedLink, expiredLink, orphanLink]
    plans := [planP]
    folders := [] }

/-! ### C1: resolver error classification -/

/-- C1: on the public resolve path, the result is NotFound exactly when
no link with the token exists; a link that is revoked or has
`expiresAt ≤ now` yields Gone; and a live link whose target plan is
missing also yields Gone, never NotFound. -/
theorem resolve_error_classification (db : DB) (token : String) (now : Int) :
    (resolveLink db token now = .error .notFound ↔ findLinkByToken db token = none) ∧
    (∀ link, findLinkByToken db token = some link →
      (link.revokedAt ≠ none ∨ link.expiresAt ≤ now) →
      resolveLink db token now = .error .gone) ∧
    (∀ link, findLinkByToken db token = some link →
      link.revokedAt = none → now < link.expiresAt →
      findPlan db link.planId = none →
      resolveLink db token now = .error .gone) := by
  unfold resolveLink
  cases hf : findLinkByToken db token with
  | none => simp
  | some link =>
    refine ⟨?_, ?_, ?_⟩
    · simp only [iff_false, Option.some.injEq, reduceCtorEq]
      by_cases hd : link.revokedAt.isSome || decide (link.expiresAt ≤ now)
      · simp [hd]
      · simp only [hd, if_false]
        cases findPlan db link.planId <;> simp
    · intro l hl hdead
      injection hl with h
      subst h
      have hcond : (link.revokedAt.isSome || decide (link.expiresAt ≤ now)) = true := by
        rcases hdead with h | h
        · simp [Option.isSome_iff_ne_none.mpr h]
        · simp [h]
      simp [hcond]
    · intro l hl hrev hexp hplan
      injection hl with h
      subst h
      have hcond : (link.revokedAt.isSome || decide (link.expiresAt ≤ now)) = false := by
        simp [hrev, not_le.mpr hexp]
      simp [hcond, hplan]

/-- Witness for C1: in the sample store, resolving the revoked link's
token and the orphan link's token both yield Gone. -/
theorem resolve_error_classification_witness :
    resolveLink sampleDB "t-rev" 100 = .error .gone ∧
    resolveLink sampleDB "t-orp" 100 = .error .gone :=
  ⟨(resolve_error_classification sampleDB "t-rev" 100).2.1 revokedLink (by decide)
      (Or.inl (by decide)),
   (resolve_error_classification sampleDB "t-orp" 100).2.2 orphanLink (by decide)
      (by decide) (by decide) (by decide)⟩

/-! ### C3: termination of the folder breadcrumb walk -/

/-- Equation: with fuel left and a current folder id, the walk looks the
folder up, stops when it is missing, else prepends and recurses. -/
theorem walkFuel_succ (fs : List Folder) (n : Nat) (c : String) (acc : List PathEntry) :
    walkFuel fs (n + 1) (some c) acc =
      match findFolder fs c with
      | none => some acc
      | some f => walkFuel fs n f.parentId (⟨f.id, f.name⟩ :: acc) := rfl

/-- Equation: a null current id ends the walk at once, whatever the fuel. -/
theorem walkFuel_none (fs : List Folder) (n : Nat) (acc : List PathEntry) :
    walkFuel fs n none acc = some acc := by
  cases n <;> rfl

/-- Two folders whose parent references form a cycle; both exist. -/
def cycFolders : List Folder := [⟨"a", "A", some "b"⟩, ⟨"b", "B", some "a"⟩]

/-- On the cyclic graph the walk never finishes: whatever the fuel, it is
still running when the fuel runs out. -/
theorem walk_cyc_none :
    ∀ (n : Nat) (c : String), (c = "a" ∨ c = "b") →
      ∀ acc, walkFuel cycFolders n (some c) acc = none := by
  intro n
  induction n with
  | zero => intro c _ acc; rfl
  | succ n ih =>
    intro c hc acc
    rcases hc with rfl | rfl
    · have h1 : findFolder cycFolders "a" = some ⟨"a", "A", some "b"⟩ := rfl
      rw [walkFuel_succ, h1]
      exact ih "b" (Or.inr rfl) _
    · have h2 : findFolder cycFolders "b" = some ⟨"b", "B", some "a"⟩ := rfl
      rw [walkFuel_succ, h2]
      exact ih "a" (Or.inl rfl) _

/-- Counterexample to C3 as stated: on a folder graph with a
parent-reference cycle of existing folders, the per-item breadcrumb walk
of the resolver does not terminate — no amount of fuel makes the source
loop finish, because the stop condition (first missing folder) is never
reached. -/
theorem getFolderPath_cycle_diverges : ¬ WalkTerminates cycFolders (some "a") := by
  rintro ⟨fuel, r, hr⟩
  rw [getFolderPath, walk_cyc_none fuel "a" (Or.inl rfl) []] at hr
  exact Option.noConfusion hr

/-- C3 (amended): the walk stops at the first missing folder (a dangling
parentId ends it in one step), and it terminates on every folder graph
that admits a rank strictly decreasing along existing parent links
(equivalently, every graph whose existing-parent chains are acyclic);
but on a parent cycle of existing folders it loops (see the
counterexample). -/
theorem getFolderPath_terminates_of_ranked (fs : List Folder) (rank : String → Nat)
    (hr : ∀ f ∈ fs, ∀ p ∈ f.parentId.toList, rank p < rank f.id) :
    (∀ folderId, WalkTerminates fs folderId) ∧
    (∀ cid acc n, findFolder fs cid = none → walkFuel fs (n + 1) (some cid) acc = some acc) := by
  have key : ∀ n c acc, rank c < n → ∃ r, walkFuel fs n (some c) acc = some r := by
    intro n
    induction n with
    | zero => intro c acc h; omega
    | succ n ih =>
      intro c acc h
      rw [walkFuel_succ]
      cases hf : findFolder fs c with
      | none => exact ⟨acc, rfl⟩
      | some f =>
        have hmem : f ∈ fs := List.mem_of_find?_eq_some hf
        have hid : f.id = c := by
          have := List.find?_some hf
          simpa using this
        show ∃ r, walkFuel fs n f.parentId (⟨f.id, f.name⟩ :: acc) = some r
        cases hp : f.parentId with
        | none => exact ⟨⟨f.id, f.name⟩ :: acc, walkFuel_none _ _ _⟩
        | some p =>
          have hlt : rank p < rank c := by
            have := hr f hmem p (by rw [hp]; simp)
            rwa [hid] at this
          exact ih p _ (by omega)
  refine ⟨?_, ?_⟩
  · intro folderId
    cases folderId with
    | none => exact ⟨0, [], rfl⟩
    | some c =>
      obtain ⟨r, hwalk⟩ := key (rank c + 1) c [] (Nat.lt_succ_self _)
      exact ⟨rank c + 1, r, hwalk⟩
  · intro cid acc n hf
    rw [walkFuel_succ, hf]

/-- Witness graph: a child folder under a root, no cycle. -/
def chainFolders : List Folder := [⟨"child", "C", some "root"⟩, ⟨"root", "R", none⟩]

/-- Witness for the amended C3: on the two-level chain the walk
terminates from the child folder. -/
theorem getFolderPath_terminates_of_ranked_witness :
    WalkTerminates chainFolders (some "child") :=
  (getFolderPath_terminates_of_ranked chainFolders
    (fun s => if s = "child" then 1 else 0) (by decide)).1 (some "child")

/-! ### Create: retry-loop analysis shared by C2 and C5 -/

/-- Equation: with no attempts left the loop falls through to the 500
service error. -/
theorem createAttempts_zero (db : DB) (newId : String) (tokens : Nat → String)
    (planId userId : String) (now dbNow : Int) (outcomes : Nat → AttemptOutcome) (a : Nat) :
    createAttempts db newId tokens planId userId now dbNow outcomes a 0 = (.serviceError, db) := rfl

/-- Complete case analysis of the retry loop, generalised over the
starting attempt `a` and the remaining budget `rem`: all-conflicts gives
the service error; the first non-conflict outcome ends the loop (success
inserts and returns 201, any other error is rethrown without further
attempts); and every successful result is the record built on attempt
`n - 1` with that attempt's freshly generated token. -/
theorem createAttempts_cases (db : DB) (newId : String) (tokens : Nat → String)
    (planId userId : String) (now dbNow : Int) (outcomes : Nat → AttemptOutcome) :
    ∀ rem a,
      ((∀ i, a ≤ i → i < a + rem → outcomes i = .uniqueConflict) →
        (createAttempts db newId tokens planId userId now dbNow outcomes a rem).1 = .serviceError) ∧
      (∀ k, a ≤ k → k < a + rem → outcomes k = .success →
        (∀ i, a ≤ i → i < k → outcomes i = .uniqueConflict) →
        createAttempts db newId tokens planId userId now dbNow outcomes a rem =
          (.created (mkLink newId tokens planId userId now dbNow k) (k + 1),
            { db with links := db.links ++ [mkLink newId tokens planId userId now dbNow k] })) ∧
      (∀ k, a ≤ k → k < a + rem → outcomes k = .otherError →
        (∀ i, a ≤ i → i < k → outcomes i = .uniqueConflict) →
        (createAttempts db newId tokens planId userId now dbNow outcomes a rem).1 = .thrown k) ∧
      (∀ link n,
        (createAttempts db newId tokens planId userId now dbNow outcomes a rem).1 = .created link n →
        a < n ∧ n ≤ a + rem ∧ link = mkLink newId tokens planId userId now dbNow (n - 1)) := by
  intro rem
  induction rem with
  | zero =>
    intro a
    refine ⟨fun _ => rfl, ?_, ?_, ?_⟩
    · intro k h1 h2; omega
    · intro k h1 h2; omega
    · intro link n h; exact absurd h (by simp [createAttempts_zero])
  | succ rem ih =>
    intro a
    have step : createAttempts db newId tokens planId userId now dbNow outcomes a (rem + 1) =
        match outcomes a with
        | .success =>
          (.created (mkLink newId tokens planId userId now dbNow a) (a + 1),
            { db with links := db.links ++ [mkLink newId tokens planId userId now dbNow a] })
        | .uniqueConflict => createAttempts db newId tokens planId userId now dbNow outcomes (a + 1) rem
        | .otherError => (.thrown a, db) := rfl
    cases ho : outcomes a with
    | success =>
      rw [step, ho]
      refine ⟨?_, ?_, ?_, ?_⟩
      · intro hall
        have := hall a (le_refl a) (by omega)
        rw [ho] at this
        exact absurd this (by simp)
      · intro k h1 h2 hk hbefore
        rcases Nat.eq_or_lt_of_le h1 with rfl | hlt
        · rfl
        · have := hbefore a (le_refl a) hlt
          rw [ho] at this
          exact absurd this (by simp)
      · intro k h1 h2 hk hbefore
        rcases Nat.eq_or_lt_of_le h1 with rfl | hlt
        · rw [ho] at hk; exact absurd hk (by simp)
        · have := hbefore a (le_refl a) hlt
          rw [ho] at this
          exact absurd this (by simp)
      · intro link n h
        simp only [CreateResp.created.injEq] at h
        obtain ⟨rfl, rfl⟩ := h.symm
        refine ⟨by omega, by omega, by simp⟩
    | uniqueConflict =>
      rw [step, ho]
      obtain ⟨ih1, ih2, ih3, ih4⟩ := ih (a + 1)
      refine ⟨?_, ?_, ?_, ?_⟩
      · intro hall
        exact ih1 (fun i hi1 hi2 => hall i (by omega) (by omega))
      · intro k h1 h2 hk hbefore
        have hka : a < k := by
          rcases Nat.eq_or_lt_of_le h1 with rfl | hlt
          · rw [ho] at hk; exact absurd hk (by simp)
          · exact hlt
        exact ih2 k (by omega) (by omega) hk (fun i hi1 hi2 => hbefore i (by omega) hi2)
      · intro k h1 h2 hk hbefore
        have hka : a < k := by
          rcases Nat.eq_or_lt_of_le h1 with rfl | hlt
          · rw [ho] at hk; exact absurd hk (by simp)
          · exact hlt
        exact ih3 k (by omega) (by omega) hk (fun i hi1 hi2 => hbefore i (by omega) hi2)
      · intro link n h
        obtain ⟨hn1, hn2, hl⟩ := ih4 link n h
        exact ⟨by omega, by omega, hl⟩
    | otherError =>
      rw [step, ho]
      refine ⟨?_, ?_, ?_, ?_⟩
      · intro hall
        have := hall a (le_refl a) (by omega)
        rw [ho] at this
        exact absurd this (by simp)
      · intro k h1 h2 hk hbefore
        rcases Nat.eq_or_lt_of_le h1 with rfl | hlt
        · rw [ho] at hk; exact absurd hk (by simp)
        · have := hbefore a (le_refl a) hlt
          rw [ho] at this
          exact absurd this (by simp)
      · intro k h1 h2 hk hbefore
        rcases Nat.eq_or_lt_of_le h1 with rfl | hlt
        · rfl
        · have := hbefore a (le_refl a) hlt
          rw [ho] at this
          exact absurd this (by simp)
      · intro link n h
        exact absurd h (by simp)

/-! ### C2: expiresAt versus createdAt -/

/-- Counterexample to C2 as stated: the controller computes `expiresAt`
from the clock value it captures before inserting (`now + 7 days`),
while the stored `createdAt` is filled by the database default
CURRENT_TIMESTAMP at insert time.  With capture at 0 ms and insert at
1 ms, the stored link has `expiresAt = 604800000` (7 days after capture)
but `createdAt + 7 days = 604800001`, so stored `expiresAt` is not the
stored `createdAt` plus exactly 7 days. -/
theorem create_expiresAt_counterexample :
    (createPlanReportShareLink sampleDB "new" (fun _ => "tok") "p1" "u1" 0 1
        (fun _ => .success)).1 =
      .created { id := "new", token := "tok", planId := "p1", createdByUserId := "u1",
                 createdAt := 1, expiresAt := 604800000, revokedAt := none } 1 ∧
    (604800000 : Int) ≠ 1 + 604800000 := by
  exact ⟨by decide, by decide⟩

/-- C2 (amended): every link produced by Create has `expiresAt` equal
to the service-captured creation instant plus exactly 7 days
(7 * 86400000 ms), and `createdAt` equal to the database insert
timestamp; hence `expiresAt = createdAt + 7 days` holds exactly when
the database-assigned `createdAt` coincides with the captured instant. -/
theorem create_expiresAt_spec (db : DB) (newId : String) (tokens : Nat → String)
    (planId userId : String) (now dbNow : Int) (outcomes : Nat → AttemptOutcome) :
    ∀ link n,
      (createPlanReportShareLink db newId tokens planId userId now dbNow outcomes).1 =
        .created link n →
      link.expiresAt = now + SHARE_EXPIRES_DAYS * msPerDay ∧
      link.createdAt = dbNow ∧
      (link.expiresAt = link.createdAt + SHARE_EXPIRES_DAYS * msPerDay ↔ dbNow = now) := by
  intro link n h
  unfold createPlanReportShareLink at h
  cases hp : findPlan db planId with
  | none => rw [hp] at h; exact absurd h (by simp)
  | some plan =>
    rw [hp] at h
    obtain ⟨-, -, hl⟩ :=
      (createAttempts_cases db newId tokens planId userId now dbNow outcomes 5 0).2.2.2 link n h
    subst hl
    refine ⟨rfl, rfl, ?_⟩
    show addDays now SHARE_EXPIRES_DAYS = dbNow + SHARE_EXPIRES_DAYS * msPerDay ↔ dbNow = now
    unfold addDays
    constructor <;> intro hx <;> omega

/-- Witness for the amended C2: with capture and insert both at 0, the
created link's `expiresAt` is 7 days and the equality with
`createdAt + 7 days` holds. -/
theorem create_expiresAt_spec_witness :
    ({ id := "new", token := "tok", planId := "p1", createdByUserId := "u1",
       createdAt := 0, expiresAt := 604800000, revokedAt := none } : ShareLink).expiresAt =
        0 + SHARE_EXPIRES_DAYS * msPerDay ∧
    ({ id := "new", token := "tok", planId := "p1", createdByUserId := "u1",
       createdAt := 0, expiresAt := 604800000, revokedAt := none } : ShareLink).createdAt = 0 ∧
    (({ id := "new", token := "tok", planId := "p1", createdByUserId := "u1",
        createdAt := 0, expiresAt := 604800000, revokedAt := none } : ShareLink).expiresAt =
      ({ id := "new", token := "tok", planId := "p1", createdByUserId := "u1",
         createdAt := 0, expiresAt := 604800000, revokedAt := none } : ShareLink).createdAt +
        SHARE_EXPIRES_DAYS * msPerDay ↔ (0 : Int) = 0) :=
  create_expiresAt_spec sampleDB "new" (fun _ => "tok") "p1" "u1" 0 0 (fun _ => .success)
    { id := "new", token := "tok", planId := "p1", createdByUserId := "u1",
      createdAt := 0, expiresAt := 604800000, revokedAt := none } 1 (by decide)

/-! ### C5: create preconditions and retry policy -/

/-- C5: Create fails with NotFound when the plan is missing; otherwise
the loop makes at most 5 attempts, each with that attempt's freshly
generated token; only a uniqueness conflict is retried (success returns
the created link, any other persistence error is rethrown on the spot);
and 5 straight conflicts end in the service error. -/
theorem create_retry_policy (db : DB) (newId : String) (tokens : Nat → String)
    (planId userId : String) (now dbNow : Int) (outcomes : Nat → AttemptOutcome) :
    (findPlan db planId = none →
      (createPlanReportShareLink db newId tokens planId userId now dbNow outcomes).1 = .notFound) ∧
    (findPlan db planId ≠ none →
      ((∀ i, i < 5 → outcomes i = .uniqueConflict) →
        (createPlanReportShareLink db newId tokens planId userId now dbNow outcomes).1 =
          .serviceError) ∧
      (∀ k, k < 5 → outcomes k = .success →
        (∀ i, i < k → outcomes i = .uniqueConflict) →
        (createPlanReportShareLink db newId tokens planId userId now dbNow outcomes).1 =
          .created (mkLink newId tokens planId userId now dbNow k) (k + 1)) ∧
      (∀ k, k < 5 → outcomes k = .otherError →
        (∀ i, i < k → outcomes i = .uniqueConflict) →
        (createPlanReportShareLink db newId tokens planId userId now dbNow outcomes).1 =
          .thrown k) ∧
      (∀ link n,
        (createPlanReportShareLink db newId tokens planId userId now dbNow outcomes).1 =
          .created link n →
        n ≤ 5 ∧ link.token = tokens (n - 1))) := by
  obtain ⟨p1, p2, p3, p4⟩ :=
    createAttempts_cases db newId tokens planId userId now dbNow outcomes 5 0
  unfold createPlanReportShareLink
  cases hp : findPlan db planId with
  | none => exact ⟨fun _ => rfl, fun hne => absurd rfl hne⟩
  | some plan =>
    refine ⟨fun hc => Option.noConfusion hc, fun _ => ⟨?_, ?_, ?_, ?_⟩⟩
    · intro hall
      exact p1 (fun i hi1 hi2 => hall i (by omega))
    · intro k hk hsucc hbefore
      have := p2 k (by omega) (by omega) hsucc (fun i hi1 hi2 => hbefore i hi2)
      rw [this]
    · intro k hk herr hbefore
      exact p3 k (by omega) (by omega) herr (fun i hi1 hi2 => hbefore i hi2)
    · intro link n h
      obtain ⟨h1, h2, hl⟩ := p4 link n h
      exact ⟨by omega, by rw [hl]; rfl⟩

/-- Witness for C5: with conflicts on attempts 0 and 1 and success on
attempt 2, Create returns the record built on attempt 2 after 3
attempts. -/
theorem create_retry_policy_witness :
    (createPlanReportShareLink sampleDB "new" (fun i => toString i) "p1" "u1" 0 0
        (fun i => if i < 2 then .uniqueConflict else .success)).1 =
      .created (mkLink "new" (fun i => toString i) "p1" "u1" 0 0 2) 3 :=
  ((create_retry_policy sampleDB "new" (fun i => toString i) "p1" "u1" 0 0
      (fun i => if i < 2 then .uniqueConflict else .success)).2 (by decide)).2.1
    2 (by decide) (by decide) (by decide)

/-! ### C4: revoke idempotence and revokedAt monotonicity -/

/-- Helper: the create loop only ever appends to the links table, so
every pre-existing link survives it verbatim. -/
theorem createAttempts_links_mono (db : DB) (newId : String) (tokens : Nat → String)
    (planId userId : String) (now dbNow : Int) (outcomes : Nat → AttemptOutcome) :
    ∀ rem a l0, l0 ∈ db.links →
      l0 ∈ (createAttempts db newId tokens planId userId now dbNow outcomes a rem).2.links := by
  intro rem
  induction rem with
  | zero => intro a l0 h; exact h
  | succ rem ih =>
    intro a l0 h
    show l0 ∈ (match outcomes a with
      | AttemptOutcome.success =>
        (CreateResp.created (mkLink newId tokens planId userId now dbNow a) (a + 1),
          { db with links := db.links ++ [mkLink newId tokens planId userId now dbNow a] })
      | AttemptOutcome.uniqueConflict =>
        createAttempts db newId tokens planId userId now dbNow outcomes (a + 1) rem
      | AttemptOutcome.otherError => (CreateResp.thrown a, db)).2.links
    cases outcomes a with
    | success => exact List.mem_append_left _ h
    | uniqueConflict => exact ih (a + 1) l0 h
    | otherError => exact h

/-- C4: revoking an already-revoked link is not an error — it returns
the informational response with the existing record's id and untouched
`revokedAt`, and leaves the store unchanged; moreover (with `id` the
unique primary key) no state transition of the subsystem — Revoke or
Create — ever removes or alters a link whose `revokedAt` is set. -/
theorem revoke_idempotent (db : DB) (i : String) (now : Int)
    (newId : String) (tokens : Nat → String) (planId userId : String)
    (cnow dbNow : Int) (outcomes : Nat → AttemptOutcome)
    (hids : (db.links.map ShareLink.id).Nodup) :
    (∀ link t, findLinkById db i = some link → link.revokedAt = some t →
      revokeReportShareLink db i now = (.already link.id (some t), db)) ∧
    (∀ l0 ∈ db.links, l0.revokedAt ≠ none →
      l0 ∈ (revokeReportShareLink db i now).2.links) ∧
    (∀ l0 ∈ db.links,
      l0 ∈ (createPlanReportShareLink db newId tokens planId userId cnow dbNow outcomes).2.links) := by
  refine ⟨?_, ?_, ?_⟩
  · intro link t hf hrev
    unfold revokeReportShareLink
    rw [hf]
    show revokeFound db i now link = _
    unfold revokeFound
    rw [hrev]
  · intro l0 hmem hrev
    unfold revokeReportShareLink
    cases hf : findLinkById db i with
    | none => exact hmem
    | some link =>
      show l0 ∈ (revokeFound db i now link).2.links
      unfold revokeFound
      cases hr : link.revokedAt with
      | some t => exact hmem
      | none =>
        show l0 ∈ db.links.map
          (fun l => if l.id == i then { l with revokedAt := some now } else l)
        have hlm : link ∈ db.links := List.mem_of_find?_eq_some hf
        have hli : link.id = i := by
          have := List.find?_some hf
          simpa using this
        have hne : (l0.id == i) = false := by
          rw [beq_eq_false_iff_ne]
          intro hid
          have : l0 = link :=
            List.inj_on_of_nodup_map hids hmem hlm (by rw [hid, hli])
          rw [this, hr] at hrev
          exact hrev rfl
        have hfix : (fun l => if l.id == i then { l with revokedAt := some now } else l) l0 = l0 := by
          simp [hne]
        rw [← hfix]
        exact List.mem_map_of_mem _ hmem
  · intro l0 hmem
    unfold createPlanReportShareLink
    cases findPlan db planId with
    | none => exact hmem
    | some plan =>
      exact createAttempts_links_mono db newId tokens planId userId cnow dbNow outcomes 5 0 l0 hmem

/-- Witness for C4: revoking the already-revoked sample link returns the
informational response and leaves the sample store unchanged. -/
theorem revoke_idempotent_witness :
    revokeReportShareLink sampleDB "l2" 100 = (.already "l2" (some 5), sampleDB) :=
  (revoke_idempotent sampleDB "l2" 100 "new" (fun _ => "tok") "p1" "u1" 0 0
      (fun _ => .success) (by decide)).1 revokedLink 5 (by decide) rfl

/-! ### C6: listing share links -/

/-- C6: List fails with NotFound exactly when the plan is missing;
otherwise it returns exactly the links belonging to the plan — a link is
in the answer iff it is stored with that planId, with no condition on
`revokedAt` or `expiresAt` — ordered newest first by `createdAt`. -/
theorem list_links_spec (db : DB) (planId : String) :
    (listPlanReportShareLinks db planId = .notFound ↔ findPlan db planId = none) ∧
    (∀ ls, listPlanReportShareLinks db planId = .ok ls →
      (∀ l, l ∈ ls ↔ l ∈ db.links ∧ l.planId = planId) ∧
      List.Sorted linkNewestFirst ls) := by
  unfold listPlanReportShareLinks
  cases hp : findPlan db planId with
  | none => exact ⟨by simp, fun ls h => absurd h (by simp)⟩
  | some plan =>
    refine ⟨by simp, ?_⟩
    intro ls h
    simp only [ListResp.ok.injEq] at h
    subst h
    constructor
    · intro l
      rw [List.mem_insertionSort, List.mem_filter]
      simp
    · exact List.sorted_insertionSort linkNewestFirst _

/-- Witness for C6: listing plan p1 in the sample store returns its
three links — live, revoked and expired alike — and the answer is
sorted newest first. -/
theorem list_links_spec_witness :
    (revokedLink ∈ [liveLink, revokedLink, expiredLink] ↔
      revokedLink ∈ sampleDB.links ∧ revokedLink.planId = "p1") ∧
    List.Sorted linkNewestFirst [liveLink, revokedLink, expiredLink] :=
  ⟨((list_links_spec sampleDB "p1").2 [liveLink, revokedLink, expiredLink] (by decide)).1
      revokedLink,
   ((list_links_spec sampleDB "p1").2 [liveLink, revokedLink, expiredLink] (by decide)).2⟩

/-! ### C7 and C10: payload items -/

/-- Helper: annotation keeps the items, in order. -/
theorem annotateItems_map_item (fs : List Folder) (fuel : Nat) :
    ∀ items ris, annotateItems fs fuel items = some ris →
      ris.map (fun r => r.item) = items := by
  intro items
  induction items with
  | nil => intro ris h; simp only [annotateItems, Option.some.injEq] at h; subst h; rfl
  | cons it rest ih =>
    intro ris h
    simp only [annotateItems] at h
    cases hp : getFolderPath fs it.testCase.folderId fuel with
    | none => rw [hp] at h; exact absurd h (by simp)
    | some p =>
      cases ha : annotateItems fs fuel rest with
      | none => rw [hp, ha] at h; exact absurd h (by simp)
      | some ris0 =>
        rw [hp, ha] at h
        simp only [Option.some.injEq] at h
        subst h
        simp [ih ris0 ha]

/-- Helper: each annotated item carries exactly the folder path its test
case's folderId resolves to. -/
theorem annotateItems_paths (fs : List Folder) (fuel : Nat) :
    ∀ items ris, annotateItems fs fuel items = some ris →
      ∀ ri ∈ ris, getFolderPath fs ri.item.testCase.folderId fuel = some ri.folderPath := by
  intro items
  induction items with
  | nil =>
    intro ris h
    simp only [annotateItems, Option.some.injEq] at h
    subst h
    intro ri hri
    exact absurd hri (by simp)
  | cons it rest ih =>
    intro ris h
    simp only [annotateItems] at h
    cases hp : getFolderPath fs it.testCase.folderId fuel with
    | none => rw [hp] at h; exact absurd h (by simp)
    | some p =>
      cases ha : annotateItems fs fuel rest with
      | none => rw [hp, ha] at h; exact absurd h (by simp)
      | some ris0 =>
        rw [hp, ha] at h
        simp only [Option.some.injEq] at h
        subst h
        intro ri hri
        rcases List.mem_cons.mp hri with rfl | hmem
        · exact hp
        · exact ih ris0 ha ri hmem

/-- C7: in every successful public resolve, the payload's items are
sorted by the plan item's own `order` field ascending with ties broken
by the test case's `sequence` ascending, and are a permutation of the
plan's stored items — the order is a deterministic function of the
stored state. -/
theorem resolve_item_ordering (db : DB) (token : String) (now : Int) (fuel : Nat) :
    ∀ payload, resolve db token now fuel = some (.ok payload) →
      List.Sorted itemLe (payload.items.map (fun r => r.item)) ∧
      (payload.items.map (fun r => r.item)).Perm payload.plan.items := by
  intro payload h
  unfold resolve at h
  cases hr : resolveLink db token now with
  | error e => rw [hr] at h; simp at h
  | ok sp =>
    rw [hr] at h
    obtain ⟨share, plan⟩ := sp
    simp only [Option.map_eq_some'] at h
    obtain ⟨its, hits, hok⟩ := h
    simp only [Except.ok.injEq] at hok
    subst hok
    have hmap := annotateItems_map_item db.folders fuel (orderedItems plan) its hits
    simp only [hmap]
    constructor
    · exact List.sorted_insertionSort itemLe _
    · exact List.perm_insertionSort itemLe _

/-- Test case in no folder. -/
def tcX : TestCase := ⟨"tc1", 2, none⟩

/-- Test case in the child folder of the chain graph. -/
def tcY : TestCase := ⟨"tc2", 1, some "child"⟩

/-- Plan item with order 2. -/
def itemA : PlanItem := ⟨"i1", 2, tcX⟩

/-- Plan item with order 1. -/
def itemB : PlanItem := ⟨"i2", 1, tcY⟩

/-- Plan p2 whose stored items are out of order. -/
def planQ : Plan := ⟨"p2", [itemA, itemB]⟩

/-- Live link to plan p2. -/
def rlink : ShareLink := ⟨"l9", "t-q", "p2", "u1", 0, 1000, none⟩

/-- Store for resolve witnesses: plan p2, its link, the chain folders. -/
def reportDB : DB := { links := [rlink], plans := [planQ], folders := chainFolders }

/-- Witness for C7: resolving p2's token yields the two items sorted by
`order` (itemB before itemA), a permutation of the stored order. -/
theorem resolve_item_ordering_witness :
    List.Sorted itemLe
      (([⟨itemB, [⟨"root", "R"⟩, ⟨"child", "C"⟩]⟩, ⟨itemA, []⟩] : List ReportItem).map
        (fun r => r.item)) ∧
    ((([⟨itemB, [⟨"root", "R"⟩, ⟨"child", "C"⟩]⟩, ⟨itemA, []⟩] : List ReportItem).map
        (fun r => r.item))).Perm
      (⟨rlink.toPublicShare, planQ,
        [⟨itemB, [⟨"root", "R"⟩, ⟨"child", "C"⟩]⟩, ⟨itemA, []⟩]⟩ : Payload).plan.items :=
  resolve_item_ordering reportDB "t-q" 100 2
    ⟨rlink.toPublicShare, planQ, [⟨itemB, [⟨"root", "R"⟩, ⟨"child", "C"⟩]⟩, ⟨itemA, []⟩]⟩ rfl

/-- C10: a null test-case folderId never makes the walk fail — its
breadcrumb resolves to the empty path with any fuel, even zero — and in
every successful resolve each payload item whose test case has a null
folderId carries the empty folderPath. -/
theorem resolve_null_folder_empty_path (db : DB) (token : String) (now : Int) (fuel : Nat) :
    (∀ fs f2, getFolderPath fs none f2 = some ([] : List PathEntry)) ∧
    (∀ payload, resolve db token now fuel = some (.ok payload) →
      ∀ ri ∈ payload.items, ri.item.testCase.folderId = none → ri.folderPath = []) := by
  constructor
  · intro fs f2; exact walkFuel_none fs f2 []
  · intro payload h ri hri hfid
    unfold resolve at h
    cases hr : resolveLink db token now with
    | error e => rw [hr] at h; simp at h
    | ok sp =>
      rw [hr] at h
      obtain ⟨share, plan⟩ := sp
      simp only [Option.map_eq_some'] at h
      obtain ⟨its, hits, hok⟩ := h
      simp only [Except.ok.injEq] at hok
      subst hok
      have := annotateItems_paths db.folders fuel (orderedItems plan) its hits ri hri
      rw [hfid, getFolderPath, walkFuel_none] at this
      simp only [Option.some.injEq] at this
      exact this.symm

/-- Witness for C10: in the resolved p2 payload the item whose test case
has no folder carries the empty folderPath. -/
theorem resolve_null_folder_empty_path_witness :
    (⟨itemA, []⟩ : ReportItem).folderPath = [] :=
  (resolve_null_folder_empty_path reportDB "t-q" 100 2).2
    ⟨rlink.toPublicShare, planQ, [⟨itemB, [⟨"root", "R"⟩, ⟨"child", "C"⟩]⟩, ⟨itemA, []⟩]⟩ rfl
    ⟨itemA, []⟩ (by simp) rfl

/-! ### C9: the public payload does not depend on the creator -/

/-- Rewrite a link's `createdByUserId` field, leaving all else alone. -/
def setCreator (f : String → String) (l : ShareLink) : ShareLink :=
  { l with createdByUserId := f l.createdByUserId }

/-- Rewrite every link's creator in the store. -/
def mapCreators (f : String → String) (db : DB) : DB :=
  { db with links := db.links.map (setCreator f) }

/-- C9: the public resolve output is identical on any two stores that
differ only in who created the links — the share metadata in the payload
is the `PublicShare` projection (exactly id, token, planId, createdAt,
expiresAt, revokedAt), which drops `createdByUserId`, and no other part
of the public path reads the creator.  So for any rewriting of creators
the whole response, success or failure, is unchanged. -/
theorem resolve_hides_creator (f : String → String) (db : DB) (token : String)
    (now : Int) (fuel : Nat) :
    resolve (mapCreators f db) token now fuel = resolve db token now fuel := by
  have hfind : findLinkByToken (mapCreators f db) token =
      (findLinkByToken db token).map (setCreator f) := by
    show (db.links.map (setCreator f)).find? (fun l => l.token == token) =
      (db.links.find? (fun l => l.token == token)).map (setCreator f)
    rw [List.find?_map]
    rfl
  have hres : resolveLink (mapCreators f db) token now = resolveLink db token now := by
    unfold resolveLink
    rw [hfind]
    cases findLinkByToken db token with
    | none => rfl
    | some link => rfl
  unfold resolve
  rw [hres]
  cases resolveLink db token now with
  | error e => rfl
  | ok sp => rfl

/-! ### C8: token generator output -/

/-- Helper: every 6-bit group the encoder emits is below 64, provided
the input bytes are below 256. -/
theorem bytesToSixbits_lt : ∀ bs : List Nat, (∀ b ∈ bs, b < 256) →
    ∀ s ∈ bytesToSixbits bs, s < 64
  | [], _ => by intro s hs; exact absurd hs (by simp [bytesToSixbits])
  | [a], h => by
    have ha : a < 256 := h a (by simp)
    intro s hs
    simp only [bytesToSixbits, List.mem_cons, List.not_mem_nil, or_false] at hs
    rcases hs with rfl | rfl <;> omega
  | [a, b], h => by
    have ha : a < 256 := h a (by simp)
    have hbb : b < 256 := h b (by simp)
    intro s hs
    simp only [bytesToSixbits, List.mem_cons, List.not_mem_nil, or_false] at hs
    rcases hs with rfl | rfl | rfl <;> omega
  | a :: b :: c :: rest, h => by
    have ha : a < 256 := h a (by simp)
    have hbb : b < 256 := h b (by simp)
    have hc : c < 256 := h c (by simp)
    intro s hs
    simp only [bytesToSixbits, List.mem_cons] at hs
    rcases hs with rfl | rfl | rfl | rfl | hmem
    · omega
    · omega
    · omega
    · omega
    · exact bytesToSixbits_lt rest (fun x hx => h x (by simp [hx])) s hmem

/-- Helper: the 6-bit decoder inverts the encoder on byte lists. -/
theorem sixbitsToBytes_bytesToSixbits : ∀ bs : List Nat, (∀ b ∈ bs, b < 256) →
    sixbitsToBytes (bytesToSixbits bs) = some bs
  | [], _ => rfl
  | [a], h => by
    have ha : a < 256 := h a (by simp)
    show sixbitsToBytes [a / 4, a % 4 * 16] = some [a]
    have h1 : a % 4 * 16 % 16 = 0 := by omega
    simp only [sixbitsToBytes, h1]
    simp only [Nat.reduceBEq, beq_self_eq_true, if_true, Option.some.injEq, List.cons.injEq,
      and_true]
    omega
  | [a, b], h => by
    have ha : a < 256 := h a (by simp)
    have hbb : b < 256 := h b (by simp)
    show sixbitsToBytes [a / 4, a % 4 * 16 + b / 16, b % 16 * 4] = some [a, b]
    have h1 : b % 16 * 4 % 4 = 0 := by omega
    simp only [sixbitsToBytes, h1]
    simp only [Nat.reduceBEq, beq_self_eq_true, if_true, Option.some.injEq, List.cons.injEq,
      and_true]
    constructor <;> omega
  | a :: b :: c :: rest, h => by
    have ha : a < 256 := h a (by simp)
    have hbb : b < 256 := h b (by simp)
    have hc : c < 256 := h c (by simp)
    have ih := sixbitsToBytes_bytesToSixbits rest (fun x hx => h x (by simp [hx]))
    show sixbitsToBytes
        (a / 4 :: (a % 4 * 16 + b / 16) :: (b % 16 * 4 + c / 64) :: c % 64 ::
          bytesToSixbits rest) = some (a :: b :: c :: rest)
    simp only [sixbitsToBytes, ih, Option.map_some', Option.some.injEq, List.cons.injEq]
    refine ⟨by omega, by omega, by omega, trivial⟩

/-- Helper: decoding the character of index `i < 64` returns `i`. -/
theorem charToSixbit_sixbitToChar : ∀ i, i < 64 → charToSixbit (sixbitToChar i) = some i := by
  decide

/-- Helper: every alphabet character of an index below 64 is in the
alphabet. -/
theorem sixbitToChar_mem : ∀ i, i < 64 → sixbitToChar i ∈ base64urlAlphabet := by
  decide

/-- Helper: decoding the character images of 6-bit groups recovers the
groups. -/
theorem charsToSixbits_map : ∀ l : List Nat, (∀ i ∈ l, i < 64) →
    charsToSixbits (l.map sixbitToChar) = some l := by
  intro l
  induction l with
  | nil => intro _; rfl
  | cons i rest ih =>
    intro h
    have hi : i < 64 := h i (by simp)
    show charsToSixbits (sixbitToChar i :: rest.map sixbitToChar) = some (i :: rest)
    simp only [charsToSixbits, charToSixbit_sixbitToChar i hi,
      ih (fun x hx => h x (by simp [hx]))]

/-- Helper: the encoder emits `(4n + 2) / 3` characters for `n` bytes
(no padding: 4 per full 3-byte block, 2 or 3 for a partial block). -/
theorem bytesToSixbits_length : ∀ bs : List Nat,
    (bytesToSixbits bs).length = (4 * bs.length + 2) / 3
  | [] => rfl
  | [a] => by simp [bytesToSixbits]
  | [a, b] => by simp [bytesToSixbits]
  | a :: b :: c :: rest => by
    have hstep : bytesToSixbits (a :: b :: c :: rest) =
        a / 4 :: (a % 4 * 16 + b / 16) :: (b % 16 * 4 + c / 64) :: c % 64 ::
          bytesToSixbits rest := rfl
    rw [hstep]
    simp only [List.length_cons]
    rw [bytesToSixbits_length rest]
    omega

/-- C8: the token built from 32 bytes (each below 256, as bytes are) is
43 characters long, every character is in the URL-safe base64url
alphabet A-Z a-z 0-9 - _, no '=' padding character occurs, and the
encoding is lossless — decoding returns exactly the 32 input bytes, so
the token preserves all 256 bits of the randomness drawn for it. -/
theorem generateShareToken_spec (bs : List Nat) (hlen : bs.length = 32)
    (hb : ∀ b ∈ bs, b < 256) :
    (generateShareToken bs).length = 43 ∧
    (∀ c ∈ (generateShareToken bs).toList, c ∈ base64urlAlphabet) ∧
    '=' ∉ (generateShareToken bs).toList ∧
    decodeToken (generateShareToken bs) = some bs := by
  have htl : (generateShareToken bs).toList = (bytesToSixbits bs).map sixbitToChar := rfl
  have hmem : ∀ c ∈ (generateShareToken bs).toList, c ∈ base64urlAlphabet := by
    rw [htl]
    intro c hc
    obtain ⟨i, hi, rfl⟩ := List.mem_map.mp hc
    exact sixbitToChar_mem i (bytesToSixbits_lt bs hb i hi)
  refine ⟨?_, hmem, ?_, ?_⟩
  · show ((bytesToSixbits bs).map sixbitToChar).length = 43
    rw [List.length_map, bytesToSixbits_length, hlen]
  · intro hpad
    have := hmem '=' hpad
    exact absurd this (by decide)
  · unfold decodeToken
    rw [htl, charsToSixbits_map _ (bytesToSixbits_lt bs hb)]
    show sixbitsToBytes (bytesToSixbits bs) = some bs
    exact sixbitsToBytes_bytesToSixbits bs hb

/-- Witness for C8: on the concrete byte list 0..31, the token has 43
characters and decodes back to the same bytes. -/
theorem generateShareToken_spec_witness :
    (generateShareToken (List.range 32)).length = 43 ∧
    decodeToken (generateShareToken (List.range 32)) = some (List.range 32) :=
  ⟨(generateShareToken_spec (List.range 32) (by decide) (by decide)).1,
   (generateShareToken_spec (List.range 32) (by decide) (by decide)).2.2.2⟩

end Orca
